import Mathlib

/-!
Verification development for `process_point_data.py` (sim-git repository).

The script extracts a window of recorded samples from a sequence of segment
files.  We embed its core logic shallowly:

* the single linear scan that resolves a requested step/time range into an
  absolute sample-index window (`scanGo`, `scanF`, `resolvePost`);
* the point selector that maps a 1-based identity range to storage slots
  (`reverseIndex`);
* point-range validation and the overall control flow of `main`;
* the emitter's row accounting (`emittedRows`).

Machine floats are modelled by `ℚ`; `np.isclose` becomes the corresponding
rational inequality with the default tolerances `rtol = 1e-5`, `atol = 1e-8`.
Command-line strings such as `"3"`, `"3:10"` and `"all"` are modelled by the
`RangeArg`/`PointsArg` inductives, which is what the parsing code in lines
62-114 of the script produces from them.  File I/O, globbing and the progress
bar carry no correctness contract and are out of scope; the data a run
supplies (per-segment step lists, time lists, the slot-to-identity mapping
`sortIndex`, and the sample dimension of `pointStates`) is passed explicitly.
-/

set_option maxHeartbeats 1000000

namespace PPD

/-! ### Data model and operations, translated from the source -/

/-- State of the single linear scan of `main` (lines 116-141): the recorded
window start `save_index_start`, window end `save_index_end` and the running
absolute sample counter `save_index`. -/
structure ScanState where
  start : Int
  stop : Int
  idx : Int
  deriving DecidableEq, Repr

/-- One pass of the loop `for nc_file in nc_files: for i in range_:` of
lines 128-141, over the concatenated per-segment value lists.  `gs v` models
`i >= range_start`, `gt v` models `i > range_end` and `eq v` models
`equal(i, range_end)`; the three conditionals run in source order and the
counter is incremented last. -/
def scanGo (gs gt eq : α → Bool) : Int → Int → Int → List α → ScanState
  | s, e, i, [] => ⟨s, e, i⟩
  | s, e, i, v :: vs =>
    let s1 := if gs v = true ∧ s = -1 then i else s
    let e1 := if gt v = true ∧ e = -1 then i - 1 else e
    let e2 := if eq v = true ∧ e1 = -1 then i else e1
    scanGo gs gt eq s1 e2 (i + 1) vs

/-- The full scan, started from the sentinels `save_index_start = -1`,
`save_index_end = -1`, `save_index = 0` (lines 116-120). -/
def scanF (gs gt eq : α → Bool) (vs : List α) : ScanState :=
  scanGo gs gt eq (-1) (-1) 0 vs

/-- The scan in `select_by_timesteps` mode: values are the integer `timeStep`
series, and `equal` is exact integer equality (lines 122-124). -/
def scanSteps (rs re : Int) (vs : List Int) : ScanState :=
  scanF (fun v => decide (rs ≤ v)) (fun v => decide (re < v)) (fun v => decide (v = re)) vs

/-- `np.isclose(a, b)` with the default tolerances, over `ℚ`:
`|a - b| <= atol + rtol * |b|` with `atol = 1e-8`, `rtol = 1e-5`. -/
def isclose (a b : ℚ) : Bool :=
  decide (|a - b| ≤ 1 / 100000000 + 1 / 100000 * |b|)

/-- The scan in time mode: values are the `time` series and `equal` is
`np.isclose` (lines 125-126). -/
def scanTime (rs re : ℚ) (vs : List ℚ) : ScanState :=
  scanF (fun v => decide (rs ≤ v)) (fun v => decide (re < v)) (fun v => isclose v re) vs

/-- The resolved selection window together with the two recoverable
`RangeNotFound` warnings. -/
structure Resolved where
  start : Int
  stop : Int
  warnStart : Bool
  warnEnd : Bool
  deriving DecidableEq, Repr

/-- Post-processing of the scan result, lines 143-155 of the script:
default a missing start to `0` with a warning; default a missing end to the
last index with a warning when an end was requested (`range_end != -1`),
otherwise set the end to the (possibly defaulted) start; and for mode "all"
(`range_selection` false) take the whole run. -/
def resolvePost (sel endNegOne : Bool) (st : ScanState) : Resolved :=
  let p := if st.start = -1 ∧ sel = true then ((0 : Int), true) else (st.start, false)
  let q :=
    if st.stop = -1 ∧ endNegOne = false ∧ sel = true then (st.idx - 1, true)
    else if endNegOne = true ∧ sel = true then (p.1, false)
    else (st.stop, false)
  if sel = true then ⟨p.1, q.1, p.2, q.2⟩ else ⟨0, st.idx - 1, p.2, q.2⟩

/-- A range argument as produced by parsing lines 89-114: `"all"`, a bare
scalar `"x"`, or a pair `"a:b"`. -/
inductive RangeArg (α : Type) where
  | all : RangeArg α
  | single : α → RangeArg α
  | pair : α → α → RangeArg α
  deriving DecidableEq, Repr

/-- `(range_selection, range_start, range_end)` after the parsing of lines
89-114: both sentinels stay `-1` for `"all"`, a bare scalar leaves
`range_end = -1`, and a pair supplies both. -/
def rangeParams [Neg α] [One α] : RangeArg α → Bool × α × α
  | .all => (false, -1, -1)
  | .single x => (true, x, -1)
  | .pair a b => (true, a, b)

/-- Full range resolution in timestep mode over the run's concatenated
`timeStep` lists (the scan state carries across segment files, so iterating
file by file equals iterating the concatenation). -/
def resolveRangeSteps (arg : RangeArg Int) (segs : List (List Int)) : Resolved :=
  let p := rangeParams arg
  resolvePost p.1 (decide (p.2.2 = -1)) (scanSteps p.2.1 p.2.2 segs.flatten)

/-- Full range resolution in time mode over the run's concatenated `time`
lists.  This is also the code path taken when both range flags are `"all"`:
`select_by_timesteps` stays false, so the time series is scanned with both
sentinels at `-1`. -/
def resolveRangeTime (arg : RangeArg ℚ) (segs : List (List ℚ)) : Resolved :=
  let p := rangeParams arg
  resolvePost p.1 (decide (p.2.2 = -1)) (scanTime p.2.1 p.2.2 segs.flatten)

/-- Index and value of the first element of a list satisfying `p`. -/
def firstHit (p : α → Bool) : List α → Option (Nat × α)
  | [] => none
  | v :: vs => if p v then some (0, v) else (firstHit p vs).map (fun x => (x.1 + 1, x.2))

/-- Turn a hit at local index `k` into the absolute index `i + k`
(sentinel `-1` when there is no hit). -/
def shiftHit (i : Int) : Option (Nat × α) → Int
  | some x => i + x.1
  | none => -1

/-- Turn the first end event (an element exceeding the end, or one equal to
it) found at local index `k` into the recorded end: an exceeding element
records the preceding absolute index `i + k - 1`, an equal one records its
own absolute index `i + k` (sentinel `-1` when there is no event). -/
def stopHit (gt : α → Bool) (i : Int) : Option (Nat × α) → Int
  | some x => if gt x.2 then i + x.1 - 1 else i + x.1
  | none => -1

/-- The value the scan records as window start: the absolute index of the
first sample with `v >= range_start`, or the sentinel `-1`. -/
def specStart (gs : α → Bool) (vs : List α) : Int :=
  shiftHit 0 (firstHit gs vs)

/-- The value the scan actually records as window end.  A first sample
(absolute index 0) that exceeds the requested end writes `0 - 1 = -1`, which
coincides with the sentinel, so it does not lock the register; apart from
that, the first end event wins.  Hence: a first sample equal (or close) to
the end records `0` — also when it exceeds the end at the same time — and
otherwise the first end event among the remaining samples (absolute index
`>= 1`) decides as in `stopHit`. -/
def specStop (gt eq : α → Bool) : List α → Int
  | [] => -1
  | v :: vs =>
    if eq v then 0
    else stopHit gt 1 (firstHit (fun w => gt w || eq w) vs)

/-- Modelled from the spec: the end rule exactly as the specification words
it — the window end is the absolute index immediately preceding the first
sample whose value exceeds the requested end, unless a sample equal to the
end is encountered first, in which case that sample's index is recorded
(with the exceeded test taking precedence at a single sample). -/
def specStopClaim (gt eq : α → Bool) (vs : List α) : Int :=
  stopHit gt 0 (firstHit (fun w => gt w || eq w) vs)

/-- The filtered `(slot, identity)` pairs of the loop
`for n, i in enumerate(sortIndex): if i in range(point_start-1, point_end)`,
then sorted by identity (`sorted(..., key=lambda x: x[1])`; Python's sort is
stable, as is insertion sort). -/
def reverseIndexPairs (si : List Int) (ps pe : Int) : List (Nat × Int) :=
  List.insertionSort (fun a b => a.2 ≤ b.2)
    (si.enum.filter (fun ni => decide (ps - 1 ≤ ni.2) && decide (ni.2 < pe)))

/-- `reverse_index` after line 170: the storage slots of the selected
points, ordered by ascending identity. -/
def reverseIndex (si : List Int) (ps pe : Int) : List Nat :=
  (reverseIndexPairs si ps pe).map (fun x => x.1)

/-- Rows one segment contributes: one row for each local sample index `i`
with `save_index_start <= i + offset <= save_index_end` (the guard of
lines 193-194). -/
def rowsOfSegment (len : Nat) (off s e : Int) : Nat :=
  ((List.range len).filter
    (fun i => decide (s ≤ (i : Int) + off) && decide ((i : Int) + off ≤ e))).length

/-- Walking the `files_with_meta` list in order with the running offset of
lines 173-179, total number of emitted data rows. -/
def emittedRowsGo (s e : Int) : List Nat → Int → Nat
  | [], _ => 0
  | l :: ls, off => rowsOfSegment l off s e + emittedRowsGo s e ls (off + l)

/-- Total number of data rows the emitter writes after the header. -/
def emittedRows (lengths : List Nat) (s e : Int) : Nat :=
  emittedRowsGo s e lengths 0

/-- The three fatal diagnostics of the script (lines 47-50, 55-57, 76-86). -/
inductive Diag where
  | conflictingSelection
  | noDataFound
  | invalidPointRange
  deriving DecidableEq, Repr

/-- A points argument as parsed by lines 62-74: `"all"`, a bare scalar, or
a pair `"a:b"`. -/
inductive PointsArg where
  | all : PointsArg
  | single : Int → PointsArg
  | pair : Int → Int → PointsArg
  deriving DecidableEq, Repr

/-- `(point_start, point_end)` after lines 62-74: the default `"all"` maps
to `1` and the length of the first segment's `sortIndex`. -/
def pointRange (arg : PointsArg) (pc : Nat) : Int × Int :=
  match arg with
  | .all => (1, (pc : Int))
  | .single x => (x, x)
  | .pair a b => (a, b)

/-- One segment file's data: the `timeStep` series, the `time` series, the
slot-to-identity mapping `sortIndex`, and the size of the sample dimension
of `pointStates` (used by the emitter as the segment length). -/
structure Segment where
  timeStep : List Int
  time : List ℚ
  sortIndex : List Int
  sampleLen : Nat
  deriving DecidableEq, Repr

/-- The command-line arguments relevant to the core logic. -/
structure Args where
  inputPoints : PointsArg
  timestepRange : RangeArg Int
  timeRange : RangeArg ℚ
  output : String
  deriving DecidableEq, Repr

/-- What a successful run produces: the resolved window, the selected
storage slots, the number of emitted data rows, and whether the final
newline of lines 209-211 is printed. -/
structure Output where
  window : Resolved
  slots : List Nat
  rows : Nat
  finalNewline : Bool
  deriving DecidableEq, Repr

/-- The selection window the run resolves: timestep mode when `-s` was
given, otherwise the time series is scanned (also in mode "all"). -/
def mainWindow (args : Args) (first : Segment) (rest : List Segment) : Resolved :=
  if args.timestepRange ≠ RangeArg.all then
    resolveRangeSteps args.timestepRange ((first :: rest).map Segment.timeStep)
  else
    resolveRangeTime args.timeRange ((first :: rest).map Segment.time)

/-- The run from point-range validation (lines 76-86) onwards, given the
nonempty segment list. -/
def mainCore (args : Args) (first : Segment) (rest : List Segment) : Except Diag Output :=
  if (pointRange args.inputPoints first.sortIndex.length).2
      < (pointRange args.inputPoints first.sortIndex.length).1 then
    .error .invalidPointRange
  else if (pointRange args.inputPoints first.sortIndex.length).1 < 1 then
    .error .invalidPointRange
  else if (first.sortIndex.length : Int)
      < (pointRange args.inputPoints first.sortIndex.length).2 then
    .error .invalidPointRange
  else
    .ok
      { window := mainWindow args first rest
        slots := reverseIndex first.sortIndex
          (pointRange args.inputPoints first.sortIndex.length).1
          (pointRange args.inputPoints first.sortIndex.length).2
        rows := emittedRows ((first :: rest).map Segment.sampleLen)
          (mainWindow args first rest).start (mainWindow args first rest).stop
        finalNewline := decide (args.output ≠ "stdout") }

/-- The control flow of `main` (lines 47-211): conflicting range selection
exits first; an empty file list exits next; then the point range is
validated against the first segment's `sortIndex`; then the window is
resolved and the selected slots and emitted rows are produced. -/
def main (args : Args) (segs : List Segment) : Except Diag Output :=
  if args.timestepRange ≠ RangeArg.all ∧ args.timeRange ≠ RangeArg.all then
    .error .conflictingSelection
  else
    match segs with
    | [] => .error .noDataFound
    | first :: rest => mainCore args first rest

instance : DecidableEq (Except Diag Output) :=
  fun a b =>
    match a, b with
    | .ok x, .ok y =>
      if h : x = y then isTrue (by rw [h])
      else isFalse (fun hc => h (Except.ok.inj hc))
    | .error x, .error y =>
      if h : x = y then isTrue (by rw [h])
      else isFalse (fun hc => h (Except.error.inj hc))
    | .ok _, .error _ => isFalse (fun hc => Except.noConfusion hc)
    | .error _, .ok _ => isFalse (fun hc => Except.noConfusion hc)

/-! ### Theorems -/

theorem scanGo_nil (gs gt eq : α → Bool) (s e i : Int) :
    scanGo gs gt eq s e i [] = ⟨s, e, i⟩ := rfl

theorem scanGo_cons (gs gt eq : α → Bool) (s e i : Int) (v : α) (vs : List α) :
    scanGo gs gt eq s e i (v :: vs) =
      scanGo gs gt eq (if gs v = true ∧ s = -1 then i else s)
        (if eq v = true ∧ (if gt v = true ∧ e = -1 then i - 1 else e) = -1 then i
         else if gt v = true ∧ e = -1 then i - 1 else e)
        (i + 1) vs := rfl

theorem firstHit_nil (p : α → Bool) : firstHit p [] = none := rfl

theorem firstHit_cons (p : α → Bool) (v : α) (vs : List α) :
    firstHit p (v :: vs) =
      if p v then some (0, v) else (firstHit p vs).map (fun x => (x.1 + 1, x.2)) := rfl

theorem scanGo_idx (gs gt eq : α → Bool) (vs : List α) :
    ∀ s e i, (scanGo gs gt eq s e i vs).idx = i + vs.length := by
  induction vs with
  | nil => intro s e i; simp [scanGo_nil]
  | cons v vs ih =>
    intro s e i
    rw [scanGo_cons, ih]
    simp only [List.length_cons]
    omega

theorem scanGo_start_e_irrel (gs gt eq : α → Bool) (vs : List α) :
    ∀ s i e e', (scanGo gs gt eq s e i vs).start = (scanGo gs gt eq s e' i vs).start := by
  induction vs with
  | nil => intro s i e e'; rfl
  | cons v vs ih =>
    intro s i e e'
    rw [scanGo_cons, scanGo_cons]
    exact ih _ (i + 1) _ _

theorem scanGo_stop_s_irrel (gs gt eq : α → Bool) (vs : List α) :
    ∀ e i s s', (scanGo gs gt eq s e i vs).stop = (scanGo gs gt eq s' e i vs).stop := by
  induction vs with
  | nil => intro e i s s'; rfl
  | cons v vs ih =>
    intro e i s s'
    rw [scanGo_cons, scanGo_cons]
    exact ih _ (i + 1) _ _

theorem scanGo_start_locked (gs gt eq : α → Bool) (vs : List α) :
    ∀ s e i, s ≠ -1 → (scanGo gs gt eq s e i vs).start = s := by
  induction vs with
  | nil => intro s e i _; rfl
  | cons v vs ih =>
    intro s e i hs
    rw [scanGo_cons]
    have h1 : ¬(gs v = true ∧ s = -1) := fun h => hs h.2
    rw [if_neg h1]
    exact ih s _ (i + 1) hs

theorem scanGo_stop_locked (gs gt eq : α → Bool) (vs : List α) :
    ∀ s e i, e ≠ -1 → (scanGo gs gt eq s e i vs).stop = e := by
  induction vs with
  | nil => intro s e i _; rfl
  | cons v vs ih =>
    intro s e i he
    rw [scanGo_cons]
    have h1 : ¬(gt v = true ∧ e = -1) := fun h => he h.2
    rw [if_neg h1]
    have h2 : ¬(eq v = true ∧ e = -1) := fun h => he h.2
    rw [if_neg h2]
    exact ih _ e (i + 1) he

theorem scanGo_start_open (gs gt eq : α → Bool) (vs : List α) :
    ∀ e i, 0 ≤ i →
      (scanGo gs gt eq (-1) e i vs).start = shiftHit i (firstHit gs vs) := by
  induction vs with
  | nil => intro e i _; rw [scanGo_nil]; rfl
  | cons v vs ih =>
    intro e i hi
    rw [scanGo_cons]
    by_cases hgs : gs v = true
    · have hc : (if gs v = true ∧ (-1 : Int) = -1 then i else (-1 : Int)) = i :=
        if_pos ⟨hgs, rfl⟩
      rw [hc]
      rw [scanGo_start_locked gs gt eq vs i _ (i + 1) (by omega)]
      rw [firstHit_cons, if_pos hgs]
      simp [shiftHit]
    · have hc : (if gs v = true ∧ (-1 : Int) = -1 then i else (-1 : Int)) = -1 :=
        if_neg (fun h => hgs h.1)
      rw [hc]
      rw [ih _ (i + 1) (by omega)]
      rw [firstHit_cons, if_neg hgs]
      cases h : firstHit gs vs with
      | none => simp [h, shiftHit]
      | some x =>
        simp only [h, Option.map_some', shiftHit]
        push_cast
        ring

theorem scanGo_stop_open (gs gt eq : α → Bool) (vs : List α) :
    ∀ s i, 1 ≤ i →
      (scanGo gs gt eq s (-1) i vs).stop =
        stopHit gt i (firstHit (fun w => gt w || eq w) vs) := by
  induction vs with
  | nil => intro s i _; rw [scanGo_nil]; rfl
  | cons v vs ih =>
    intro s i hi
    rw [scanGo_cons]
    by_cases hgt : gt v = true
    · have hc1 : (if gt v = true ∧ (-1 : Int) = -1 then i - 1 else (-1 : Int)) = i - 1 :=
        if_pos ⟨hgt, rfl⟩
      rw [hc1]
      have h2 : ¬(eq v = true ∧ i - 1 = -1) := fun h => absurd h.2 (by omega)
      rw [if_neg h2]
      rw [scanGo_stop_locked gs gt eq vs _ (i - 1) (i + 1) (by intro h; omega)]
      have hor : ((fun w => gt w || eq w) v) = true := by simp [hgt]
      rw [firstHit_cons, if_pos hor]
      simp [stopHit, hgt]
    · have hc1 : (if gt v = true ∧ (-1 : Int) = -1 then i - 1 else (-1 : Int)) = -1 :=
        if_neg (fun h => hgt h.1)
      rw [hc1]
      by_cases heq : eq v = true
      · have hc2 : (if eq v = true ∧ (-1 : Int) = -1 then i else (-1 : Int)) = i :=
          if_pos ⟨heq, rfl⟩
        rw [hc2]
        rw [scanGo_stop_locked gs gt eq vs _ i (i + 1) (by intro h; omega)]
        have hor : ((fun w => gt w || eq w) v) = true := by simp [heq]
        rw [firstHit_cons, if_pos hor]
        simp only [Bool.not_eq_true] at hgt
        simp [stopHit, hgt]
      · have hc2 : (if eq v = true ∧ (-1 : Int) = -1 then i else (-1 : Int)) = -1 :=
          if_neg (fun h => heq h.1)
        rw [hc2]
        rw [ih _ (i + 1) (by omega)]
        have hor : ((fun w => gt w || eq w) v) = false := by
          simp only [Bool.or_eq_false_iff]
          constructor
          · exact Bool.not_eq_true _ |>.mp hgt
          · exact Bool.not_eq_true _ |>.mp heq
        rw [firstHit_cons]
        rw [if_neg (by simp [hor])]
        cases h : firstHit (fun w => gt w || eq w) vs with
        | none => simp [h, stopHit]
        | some x =>
          simp only [h, Option.map_some', stopHit]
          by_cases hx : gt x.2 = true
          · simp only [if_pos hx]
            push_cast
            ring
          · simp only [if_neg hx]
            push_cast
            ring

theorem scanF_start (gs gt eq : α → Bool) (vs : List α) :
    (scanF gs gt eq vs).start = specStart gs vs := by
  rw [scanF, scanGo_start_open gs gt eq vs (-1) 0 le_rfl, specStart]

theorem scanF_idx (gs gt eq : α → Bool) (vs : List α) :
    (scanF gs gt eq vs).idx = (vs.length : Int) := by
  rw [scanF, scanGo_idx]; omega

theorem scanF_stop (gs gt eq : α → Bool) (vs : List α) :
    (scanF gs gt eq vs).stop = specStop gt eq vs := by
  cases vs with
  | nil => rfl
  | cons v vs =>
    rw [scanF, scanGo_cons]
    have h1 : (if gt v = true ∧ (-1 : Int) = -1 then (0 : Int) - 1 else -1) = -1 := by
      split <;> omega
    rw [h1]
    by_cases heq : eq v = true
    · have hc2 : (if eq v = true ∧ (-1 : Int) = -1 then (0 : Int) else -1) = 0 :=
        if_pos ⟨heq, rfl⟩
      rw [hc2]
      rw [scanGo_stop_locked gs gt eq vs _ 0 (0 + 1) (by omega)]
      simp [specStop, heq]
    · have hc2 : (if eq v = true ∧ (-1 : Int) = -1 then (0 : Int) else -1) = -1 :=
        if_neg (fun h => heq h.1)
      rw [hc2]
      rw [scanGo_stop_open gs gt eq vs _ (0 + 1) (by omega)]
      simp [specStop, heq]

theorem firstHit_eq_none (p : α → Bool) (vs : List α) (h : ∀ v ∈ vs, p v = false) :
    firstHit p vs = none := by
  induction vs with
  | nil => rfl
  | cons v vs ih =>
    rw [firstHit_cons, if_neg (by simp [h v (List.mem_cons_self v vs)])]
    rw [ih (fun w hw => h w (List.mem_cons_of_mem v hw))]
    rfl

theorem specStart_eq_neg_one (gs : α → Bool) (vs : List α)
    (h : ∀ v ∈ vs, gs v = false) : specStart gs vs = -1 := by
  rw [specStart, firstHit_eq_none gs vs h]; rfl

theorem specStop_eq_neg_one (gt eq : α → Bool) (vs : List α)
    (he : ∀ v ∈ vs, eq v = false) (hg : ∀ v ∈ vs.tail, gt v = false) :
    specStop gt eq vs = -1 := by
  cases vs with
  | nil => rfl
  | cons v vs =>
    simp only [specStop]
    rw [if_neg (by simp [he v (List.mem_cons_self v vs)])]
    rw [firstHit_eq_none _ vs
      (fun w hw => by simp [he w (List.mem_cons_of_mem v hw), hg w hw])]
    rfl

theorem resolvePost_not_sel (endNegOne : Bool) (st : ScanState) :
    resolvePost false endNegOne st = ⟨0, st.idx - 1, false, false⟩ := by
  unfold resolvePost
  simp

theorem resolvePost_start_default (endNegOne : Bool) (st : ScanState)
    (h : st.start = -1) :
    (resolvePost true endNegOne st).warnStart = true
    ∧ (resolvePost true endNegOne st).start = 0 := by
  unfold resolvePost
  simp [h]

theorem resolvePost_end_default (st : ScanState) (h : st.stop = -1) :
    (resolvePost true false st).warnEnd = true
    ∧ (resolvePost true false st).stop = st.idx - 1 := by
  unfold resolvePost
  simp [h]

theorem resolvePost_single_found (st : ScanState) (h : st.start ≠ -1) :
    resolvePost true true st = ⟨st.start, st.start, false, false⟩ := by
  unfold resolvePost
  simp [h]

theorem resolvePost_pair_found (st : ScanState) (hstart : st.start ≠ -1)
    (hstop : st.stop ≠ -1) :
    resolvePost true false st = ⟨st.start, st.stop, false, false⟩ := by
  unfold resolvePost
  simp [hstart, hstop]

theorem resolvePost_end_sentinel (st : ScanState) :
    (resolvePost true true st).warnEnd = false
    ∧ (resolvePost true true st).stop = (resolvePost true true st).start := by
  unfold resolvePost
  simp

/-- C1 (amended).  In both modes the single linear scan records the window
start at the absolute index of the first sample with value `>= start`, never
moving it afterwards, and records as window end the first "end event" in
scan order — with the amendment that a very first sample (absolute index 0)
exceeding the requested end writes `0 - 1 = -1`, which coincides with the
unset sentinel, so it does not fix the end: an equal first sample still
records `0`, and otherwise the first exceeding-or-equal sample among the
later samples decides (an exceeding sample at index `k >= 1` records `k - 1`,
an equal sample records its own index).  The claim's unconditional
"index immediately preceding the first sample that exceeds end" rule is
refuted by `scan_end_rule_cex` below. -/
theorem scan_window_characterization :
    (∀ (rs re : Int) (vs : List Int),
      (scanSteps rs re vs).start = specStart (fun v => decide (rs ≤ v)) vs
      ∧ (scanSteps rs re vs).stop
          = specStop (fun v => decide (re < v)) (fun v => decide (v = re)) vs
      ∧ (scanSteps rs re vs).idx = (vs.length : Int))
    ∧ (∀ (rs re : ℚ) (vs : List ℚ),
      (scanTime rs re vs).start = specStart (fun v => decide (rs ≤ v)) vs
      ∧ (scanTime rs re vs).stop
          = specStop (fun v => decide (re < v)) (fun v => isclose v re) vs
      ∧ (scanTime rs re vs).idx = (vs.length : Int)) :=
  ⟨fun _ _ vs => ⟨scanF_start _ _ _ vs, scanF_stop _ _ _ vs, scanF_idx _ _ _ vs⟩,
   fun _ _ vs => ⟨scanF_start _ _ _ vs, scanF_stop _ _ _ vs, scanF_idx _ _ _ vs⟩⟩

/-- C1 counterexample.  For steps `[10, 20]` and requested range `0:5` the
first sample already exceeds the end, so the claim's rule would record
`0 - 1 = -1` (no sample equals `5`); the code's scan instead writes the
sentinel value and later locks the end at `1 - 1 = 0` when the second sample
exceeds the end as well. -/
theorem scan_end_rule_cex :
    (scanSteps 0 5 [10, 20]).stop = 0
    ∧ specStopClaim (fun v => decide ((5 : Int) < v))
        (fun v => decide (v = (5 : Int))) [10, 20] = -1
    ∧ (scanSteps 0 5 [10, 20]).stop
        ≠ specStopClaim (fun v => decide ((5 : Int) < v))
            (fun v => decide (v = (5 : Int))) [10, 20] := by decide

/-- C3.  When neither a timestep range nor a time range is supplied,
`range_selection` is false and the resolved window is the whole run
`[0, N - 1]`.  (In this mode the code scans the `time` series with both
sentinels at `-1` and then overwrites the result with the full window.) -/
theorem resolve_all_full_window (segs : List (List ℚ))
    (_h : 1 ≤ segs.flatten.length) :
    resolveRangeTime RangeArg.all segs
      = ⟨0, (segs.flatten.length : Int) - 1, false, false⟩ := by
  have hred : resolveRangeTime RangeArg.all segs
      = resolvePost false (decide ((-1 : ℚ) = -1))
          (scanTime (-1) (-1) segs.flatten) := rfl
  rw [hred, resolvePost_not_sel]
  rw [show (scanTime (-1) (-1) segs.flatten).idx = (segs.flatten.length : Int) from
    scanF_idx _ _ _ _]

theorem resolve_all_full_window_witness :
    resolveRangeTime RangeArg.all [[(0 : ℚ)]] = ⟨0, 0, false, false⟩ := by
  rw [resolve_all_full_window [[(0 : ℚ)]] (by decide)]
  decide

/-- C6 (amended).  In both modes and for both bare-scalar and pair
requests: if no scanned sample satisfies `v >= range_start`, the resolver
emits the recoverable start warning and defaults the window start to `0`.
If a requested end other than the literal `-1` is never located by the
scan — no sample equals (or, in time mode, is close to) the end and no
sample past the first exceeds it — the resolver emits the recoverable end
warning and defaults the window end to the last absolute index.  The
claim's end rule fails, however, when the requested end is the value `-1`
itself (the expressible request `"start:-1"`, indistinguishable from the
unset sentinel, and likewise every bare-scalar request): the
`range_end != -1` gate of line 147 suppresses the warning and line 151
instead sets the window end to the (possibly defaulted) window start, not
the last index — refuted at a concrete input by
`rangeNotFound_sentinel_end_cex`.  Execution continues in all cases: the
resolver is a total function. -/
theorem rangeNotFound_defaults :
    (∀ (rs re : Int) (segs : List (List Int)),
      ((∀ v ∈ segs.flatten, ¬ rs ≤ v) →
        (resolveRangeSteps (RangeArg.pair rs re) segs).warnStart = true
        ∧ (resolveRangeSteps (RangeArg.pair rs re) segs).start = 0)
      ∧ ((∀ v ∈ segs.flatten, ¬ rs ≤ v) →
        (resolveRangeSteps (RangeArg.single rs) segs).warnStart = true
        ∧ (resolveRangeSteps (RangeArg.single rs) segs).start = 0)
      ∧ (re ≠ -1 → (∀ v ∈ segs.flatten, v ≠ re) →
          (∀ v ∈ segs.flatten.tail, ¬ re < v) →
          (resolveRangeSteps (RangeArg.pair rs re) segs).warnEnd = true
          ∧ (resolveRangeSteps (RangeArg.pair rs re) segs).stop
              = (segs.flatten.length : Int) - 1)
      ∧ ((resolveRangeSteps (RangeArg.pair rs (-1)) segs).warnEnd = false
        ∧ (resolveRangeSteps (RangeArg.pair rs (-1)) segs).stop
            = (resolveRangeSteps (RangeArg.pair rs (-1)) segs).start)
      ∧ ((resolveRangeSteps (RangeArg.single rs) segs).warnEnd = false
        ∧ (resolveRangeSteps (RangeArg.single rs) segs).stop
            = (resolveRangeSteps (RangeArg.single rs) segs).start))
    ∧ (∀ (rs re : ℚ) (segs : List (List ℚ)),
      ((∀ v ∈ segs.flatten, ¬ rs ≤ v) →
        (resolveRangeTime (RangeArg.pair rs re) segs).warnStart = true
        ∧ (resolveRangeTime (RangeArg.pair rs re) segs).start = 0)
      ∧ ((∀ v ∈ segs.flatten, ¬ rs ≤ v) →
        (resolveRangeTime (RangeArg.single rs) segs).warnStart = true
        ∧ (resolveRangeTime (RangeArg.single rs) segs).start = 0)
      ∧ (re ≠ -1 → (∀ v ∈ segs.flatten, isclose v re = false) →
          (∀ v ∈ segs.flatten.tail, ¬ re < v) →
          (resolveRangeTime (RangeArg.pair rs re) segs).warnEnd = true
          ∧ (resolveRangeTime (RangeArg.pair rs re) segs).stop
              = (segs.flatten.length : Int) - 1)
      ∧ ((resolveRangeTime (RangeArg.pair rs (-1)) segs).warnEnd = false
        ∧ (resolveRangeTime (RangeArg.pair rs (-1)) segs).stop
            = (resolveRangeTime (RangeArg.pair rs (-1)) segs).start)
      ∧ ((resolveRangeTime (RangeArg.single rs) segs).warnEnd = false
        ∧ (resolveRangeTime (RangeArg.single rs) segs).stop
            = (resolveRangeTime (RangeArg.single rs) segs).start)) := by
  constructor
  · intro rs re segs
    have hred : resolveRangeSteps (RangeArg.pair rs re) segs
        = resolvePost true (decide (re = -1)) (scanSteps rs re segs.flatten) := rfl
    have hred1 : resolveRangeSteps (RangeArg.single rs) segs
        = resolvePost true (decide ((-1 : Int) = -1))
            (scanSteps rs (-1) segs.flatten) := rfl
    have hredm : resolveRangeSteps (RangeArg.pair rs (-1)) segs
        = resolvePost true (decide ((-1 : Int) = -1))
            (scanSteps rs (-1) segs.flatten) := rfl
    have hone : decide ((-1 : Int) = -1) = true := by decide
    refine ⟨?_, ?_, ?_, ?_, ?_⟩
    · intro h
      rw [hred]
      apply resolvePost_start_default
      rw [show scanSteps rs re segs.flatten
          = scanF (fun v => decide (rs ≤ v)) (fun v => decide (re < v))
              (fun v => decide (v = re)) segs.flatten from rfl, scanF_start]
      exact specStart_eq_neg_one _ _ (fun v hv => decide_eq_false (h v hv))
    · intro h
      rw [hred1]
      apply resolvePost_start_default
      rw [show scanSteps rs (-1) segs.flatten
          = scanF (fun v => decide (rs ≤ v)) (fun v => decide ((-1 : Int) < v))
              (fun v => decide (v = (-1 : Int))) segs.flatten from rfl, scanF_start]
      exact specStart_eq_neg_one _ _ (fun v hv => decide_eq_false (h v hv))
    · intro hre hne hgt
      rw [hred, decide_eq_false hre]
      have hstop : (scanSteps rs re segs.flatten).stop = -1 := by
        rw [show scanSteps rs re segs.flatten
            = scanF (fun v => decide (rs ≤ v)) (fun v => decide (re < v))
                (fun v => decide (v = re)) segs.flatten from rfl, scanF_stop]
        exact specStop_eq_neg_one _ _ _
          (fun v hv => decide_eq_false (hne v hv))
          (fun v hv => decide_eq_false (hgt v hv))
      obtain ⟨h1, h2⟩ := resolvePost_end_default _ hstop
      refine ⟨h1, ?_⟩
      rw [h2, show (scanSteps rs re segs.flatten).idx
          = (segs.flatten.length : Int) from scanF_idx _ _ _ _]
    · rw [hredm, hone]
      exact resolvePost_end_sentinel _
    · rw [hred1, hone]
      exact resolvePost_end_sentinel _
  · intro rs re segs
    have hred : resolveRangeTime (RangeArg.pair rs re) segs
        = resolvePost true (decide (re = -1)) (scanTime rs re segs.flatten) := rfl
    have hred1 : resolveRangeTime (RangeArg.single rs) segs
        = resolvePost true (decide ((-1 : ℚ) = -1))
            (scanTime rs (-1) segs.flatten) := rfl
    have hredm : resolveRangeTime (RangeArg.pair rs (-1)) segs
        = resolvePost true (decide ((-1 : ℚ) = -1))
            (scanTime rs (-1) segs.flatten) := rfl
    have hone : decide ((-1 : ℚ) = -1) = true := by simp
    refine ⟨?_, ?_, ?_, ?_, ?_⟩
    · intro h
      rw [hred]
      apply resolvePost_start_default
      rw [show scanTime rs re segs.flatten
          = scanF (fun v => decide (rs ≤ v)) (fun v => decide (re < v))
              (fun v => isclose v re) segs.flatten from rfl, scanF_start]
      exact specStart_eq_neg_one _ _ (fun v hv => decide_eq_false (h v hv))
    · intro h
      rw [hred1]
      apply resolvePost_start_default
      rw [show scanTime rs (-1) segs.flatten
          = scanF (fun v => decide (rs ≤ v)) (fun v => decide ((-1 : ℚ) < v))
              (fun v => isclose v (-1)) segs.flatten from rfl, scanF_start]
      exact specStart_eq_neg_one _ _ (fun v hv => decide_eq_false (h v hv))
    · intro hre hne hgt
      rw [hred, decide_eq_false hre]
      have hstop : (scanTime rs re segs.flatten).stop = -1 := by
        rw [show scanTime rs re segs.flatten
            = scanF (fun v => decide (rs ≤ v)) (fun v => decide (re < v))
                (fun v => isclose v re) segs.flatten from rfl, scanF_stop]
        exact specStop_eq_neg_one _ _ _ (fun v hv => hne v hv)
          (fun v hv => decide_eq_false (hgt v hv))
      obtain ⟨h1, h2⟩ := resolvePost_end_default _ hstop
      refine ⟨h1, ?_⟩
      rw [h2, show (scanTime rs re segs.flatten).idx
          = (segs.flatten.length : Int) from scanF_idx _ _ _ _]
    · rw [hredm, hone]
      exact resolvePost_end_sentinel _
    · rw [hred1, hone]
      exact resolvePost_end_sentinel _

/-- C6 counterexample.  For steps `[-5, -3]` and the expressible request
`3:-1`, the requested end `-1` is never observed in the data (no sample
equals it and no sample exceeds it), so the scan records no end; yet the
`range_end != -1` gate of line 147 suppresses the recoverable warning and
line 151 sets the window end to the defaulted window start `0` instead of
the last absolute index `1`. -/
theorem rangeNotFound_sentinel_end_cex :
    (∀ v ∈ ([[-5, -3]] : List (List Int)).flatten, v ≠ -1)
    ∧ (∀ v ∈ ([[-5, -3]] : List (List Int)).flatten, ¬ (-1 : Int) < v)
    ∧ (resolveRangeSteps (RangeArg.pair 3 (-1)) [[-5, -3]]).warnEnd = false
    ∧ (resolveRangeSteps (RangeArg.pair 3 (-1)) [[-5, -3]]).stop = 0
    ∧ (resolveRangeSteps (RangeArg.pair 3 (-1)) [[-5, -3]]).stop
        ≠ (([[-5, -3]] : List (List Int)).flatten.length : Int) - 1 := by
  decide

theorem rangeNotFound_defaults_witness :
    ((resolveRangeSteps (RangeArg.pair 100 200) [[10, 20]]).warnStart = true
      ∧ (resolveRangeSteps (RangeArg.pair 100 200) [[10, 20]]).start = 0)
    ∧ ((resolveRangeSteps (RangeArg.single 100) [[10, 20]]).warnStart = true
      ∧ (resolveRangeSteps (RangeArg.single 100) [[10, 20]]).start = 0)
    ∧ ((resolveRangeSteps (RangeArg.pair 100 200) [[10, 20]]).warnEnd = true
      ∧ (resolveRangeSteps (RangeArg.pair 100 200) [[10, 20]]).stop
          = (([[10, 20]] : List (List Int)).flatten.length : Int) - 1)
    ∧ ((resolveRangeSteps (RangeArg.pair 100 (-1)) [[10, 20]]).warnEnd = false
      ∧ (resolveRangeSteps (RangeArg.pair 100 (-1)) [[10, 20]]).stop
          = (resolveRangeSteps (RangeArg.pair 100 (-1)) [[10, 20]]).start) := by
  obtain ⟨hc, _⟩ := rangeNotFound_defaults
  obtain ⟨h1, h2, h3, h4, _⟩ := hc 100 200 [[10, 20]]
  exact ⟨h1 (by decide), h2 (by decide), h3 (by decide) (by decide) (by decide), h4⟩

theorem firstHit_ge_of_sorted_mem (x : Int) (vs : List Int)
    (hs : List.Pairwise (· ≤ ·) vs) (hm : x ∈ vs) :
    ∃ k, firstHit (fun v => decide (x ≤ v)) vs = some (k, x) := by
  induction vs with
  | nil => cases hm
  | cons v vs ih =>
    obtain ⟨hv, hs'⟩ := List.pairwise_cons.mp hs
    by_cases hxv : x ≤ v
    · refine ⟨0, ?_⟩
      rw [firstHit_cons, if_pos (decide_eq_true hxv)]
      have hvx : v = x := by
        rcases List.mem_cons.mp hm with h | h
        · omega
        · have := hv x h; omega
      rw [hvx]
    · have hx : x ∈ vs := by
        rcases List.mem_cons.mp hm with h | h
        · exact absurd (le_of_eq h) hxv
        · exact h
      obtain ⟨k, hk⟩ := ih hs' hx
      refine ⟨k + 1, ?_⟩
      rw [firstHit_cons, if_neg (by simp [hxv]), hk]
      rfl

theorem orStep_eq_ge (x : Int) :
    (fun w : Int => decide (x < w) || decide (w = x)) = fun w => decide (x ≤ w) := by
  funext w
  by_cases h1 : x < w
  · simp [h1, le_of_lt h1]
  · by_cases h2 : w = x
    · simp [h2]
    · simp [h1, h2, show ¬ x ≤ w by omega]

theorem specStop_pair_eq_specStart (x : Int) (vs : List Int)
    (hs : List.Pairwise (· ≤ ·) vs) (hm : x ∈ vs) :
    specStop (fun v => decide (x < v)) (fun v => decide (v = x)) vs
      = specStart (fun v => decide (x ≤ v)) vs
    ∧ specStart (fun v => decide (x ≤ v)) vs ≠ -1 := by
  cases vs with
  | nil => cases hm
  | cons v vs =>
    obtain ⟨hv, hs'⟩ := List.pairwise_cons.mp hs
    by_cases hvx : v = x
    · constructor
      · simp only [specStop, specStart, firstHit_cons]
        rw [if_pos (decide_eq_true hvx), if_pos (decide_eq_true (le_of_eq hvx.symm))]
        rfl
      · simp only [specStart, firstHit_cons]
        rw [if_pos (decide_eq_true (le_of_eq hvx.symm))]
        simp [shiftHit]
    · have hx : x ∈ vs := by
        rcases List.mem_cons.mp hm with h | h
        · exact absurd h.symm hvx
        · exact h
      have hxv : ¬ x ≤ v := by
        have := hv x hx
        intro hc
        exact hvx (by omega)
      obtain ⟨k, hk⟩ := firstHit_ge_of_sorted_mem x vs hs' hx
      have hstart : specStart (fun v => decide (x ≤ v)) (v :: vs) = (k : Int) + 1 := by
        simp only [specStart, firstHit_cons]
        rw [if_neg (by simp [hxv]), hk]
        simp [shiftHit]
      constructor
      · rw [hstart]
        simp only [specStop]
        rw [if_neg (by simp [hvx])]
        have hpred : (fun w => (fun v => decide (x < v)) w || (fun v => decide (v = x)) w)
            = fun w : Int => decide (x ≤ w) := by
          simpa using orStep_eq_ge x
        rw [hpred, hk]
        simp only [stopHit, decide_eq_true_eq, if_neg (lt_irrefl x)]
        ring
      · rw [hstart]
        omega

/-- C7 (amended).  In by-step mode, over a run whose concatenated step
series is non-decreasing, resolving the bare scalar `"x"` and resolving the
pair `"x:x"` give the same window whenever the value `x` actually occurs
among the recorded steps.  (When `x` is absent the two differ —
`bare_scalar_pair_cex` — because the bare form always forces
`window end = window start` while the pair form resolves the end
independently, possibly producing an empty window or defaulting to the last
index; the same applies in time mode, where near-misses of `np.isclose` can
fire at earlier indices.) -/
theorem bare_scalar_eq_pair_of_mem (x : Int) (segs : List (List Int))
    (hs : List.Pairwise (· ≤ ·) segs.flatten) (hm : x ∈ segs.flatten) :
    resolveRangeSteps (RangeArg.single x) segs
      = resolveRangeSteps (RangeArg.pair x x) segs := by
  by_cases hx : x = -1
  · subst hx; rfl
  · have hred1 : resolveRangeSteps (RangeArg.single x) segs
        = resolvePost true (decide ((-1 : Int) = -1)) (scanSteps x (-1) segs.flatten) := rfl
    have hred2 : resolveRangeSteps (RangeArg.pair x x) segs
        = resolvePost true (decide (x = -1)) (scanSteps x x segs.flatten) := rfl
    rw [hred1, hred2, decide_eq_false hx,
      show decide ((-1 : Int) = -1) = true from by decide]
    obtain ⟨heq, hne⟩ := specStop_pair_eq_specStart x segs.flatten hs hm
    have h1 : (scanSteps x (-1) segs.flatten).start
        = specStart (fun v => decide (x ≤ v)) segs.flatten := scanF_start _ _ _ _
    have h2 : (scanSteps x x segs.flatten).start
        = specStart (fun v => decide (x ≤ v)) segs.flatten := scanF_start _ _ _ _
    have h3 : (scanSteps x x segs.flatten).stop
        = specStart (fun v => decide (x ≤ v)) segs.flatten := by
      rw [show scanSteps x x segs.flatten
          = scanF (fun v => decide (x ≤ v)) (fun v => decide (x < v))
              (fun v => decide (v = x)) segs.flatten from rfl, scanF_stop]
      exact heq
    rw [resolvePost_single_found _ (by rw [h1]; exact hne),
      resolvePost_pair_found _ (by rw [h2]; exact hne) (by rw [h3]; exact hne),
      h1, h2, h3]

/-- C7 counterexample.  Steps `[10, 20, 30]` with `x = 15` (absent from the
data): the bare scalar resolves to the single-sample window `[1, 1]`, while
the pair `15:15` resolves to the empty window `[1, 0]`. -/
theorem bare_scalar_pair_cex :
    resolveRangeSteps (RangeArg.single 15) [[10, 20, 30]]
      ≠ resolveRangeSteps (RangeArg.pair 15 15) [[10, 20, 30]] := by decide

theorem bare_scalar_eq_pair_witness :
    resolveRangeSteps (RangeArg.single 15) [[10, 15, 20]]
      = resolveRangeSteps (RangeArg.pair 15 15) [[10, 15, 20]] :=
  bare_scalar_eq_pair_of_mem 15 [[10, 15, 20]] (by decide) (by decide)

theorem mem_reverseIndexPairs (si : List Int) (ps pe : Int) (n : Nat) (i : Int) :
    (n, i) ∈ reverseIndexPairs si ps pe ↔
      si[n]? = some i ∧ ps - 1 ≤ i ∧ i < pe := by
  rw [reverseIndexPairs, List.mem_insertionSort, List.mem_filter]
  simp [List.mk_mem_enum_iff_getElem?, and_assoc]

theorem pairs_snd_eq (si : List Int) (ps pe : Int) :
    ∀ x ∈ reverseIndexPairs si ps pe, si.getD x.1 0 = x.2 := by
  intro x hx
  obtain ⟨h1, _, _⟩ := (mem_reverseIndexPairs si ps pe x.1 x.2).mp hx
  simp [List.getD_eq_getElem?_getD, h1]

theorem pairs_sorted (si : List Int) (ps pe : Int) :
    List.Pairwise (fun a b : Nat × Int => a.2 ≤ b.2) (reverseIndexPairs si ps pe) := by
  haveI : IsTotal (Nat × Int) (fun a b => a.2 ≤ b.2) := ⟨fun a b => le_total a.2 b.2⟩
  haveI : IsTrans (Nat × Int) (fun a b => a.2 ≤ b.2) := ⟨fun _ _ _ h1 h2 => le_trans h1 h2⟩
  exact List.sorted_insertionSort _ _

/-- Length of a filter by an integer interval equals the sum of the value
counts over that interval. -/
theorem length_filter_interval (si : List Int) (a b : Int) :
    (si.filter (fun v => decide (a ≤ v) && decide (v < b))).length
      = ∑ k ∈ Finset.Ico a b, si.count k := by
  induction si with
  | nil => simp
  | cons v l ih =>
    have hcnt : ∀ k : Int, (v :: l).count k = l.count k + if k = v then 1 else 0 := by
      intro k
      rw [List.count_cons]
      rcases eq_or_ne k v with h | h
      · subst h; simp
      · have hb : (v == k) = false := by simp [Ne.symm h]
        simp [hb, h]
    simp only [hcnt, Finset.sum_add_distrib, Finset.sum_ite_eq' (Finset.Ico a b) v fun _ => 1]
    rw [← ih]
    by_cases hv : a ≤ v ∧ v < b
    · rw [List.filter_cons_of_pos (by simp [hv.1, hv.2])]
      rw [if_pos (Finset.mem_Ico.mpr hv)]
      simp
    · rw [List.filter_cons_of_neg (by simpa using fun h1 h2 => hv ⟨h1, h2⟩)]
      rw [if_neg (fun hc => hv (Finset.mem_Ico.mp hc))]
      simp

theorem reverseIndex_length (si : List Int) (ps pe : Int) :
    (reverseIndex si ps pe).length
      = ∑ k ∈ Finset.Ico (ps - 1) pe, si.count k := by
  rw [reverseIndex, List.length_map, reverseIndexPairs,
    (List.perm_insertionSort _ _).length_eq]
  rw [← length_filter_interval si (ps - 1) pe]
  rw [← List.countP_eq_length_filter, ← List.countP_eq_length_filter]
  have h1 : si.enum.countP (fun ni => decide (ps - 1 ≤ ni.2) && decide (ni.2 < pe))
      = (si.enum.map Prod.snd).countP (fun v => decide (ps - 1 ≤ v) && decide (v < pe)) := by
    rw [List.countP_map]
    rfl
  rw [h1, List.enum_map_snd]

/-- C2.  The Point Selector returns exactly the storage slots whose identity
lies in the zero-based range `[start-1, end-1]`; the returned slots are
ordered by ascending identity value; and whenever every requested identity
occurs exactly once in the mapping, the number of returned slots equals the
requested range size `end - start + 1`.  (The second conjunct holds for any
on-disk slot order, so selecting the full range always lists the slots by
ascending identity.) -/
theorem pointSelector_spec (si : List Int) (ps pe : Int) :
    (∀ n : Nat, n ∈ reverseIndex si ps pe ↔
      ∃ i, si[n]? = some i ∧ ps - 1 ≤ i ∧ i ≤ pe - 1)
    ∧ List.Pairwise (fun m n => si.getD m 0 ≤ si.getD n 0) (reverseIndex si ps pe)
    ∧ ((∀ k : Int, ps - 1 ≤ k → k ≤ pe - 1 → si.count k = 1) →
        (reverseIndex si ps pe).length = (pe - ps + 1).toNat) := by
  refine ⟨?_, ?_, ?_⟩
  · intro n
    rw [reverseIndex, List.mem_map]
    constructor
    · rintro ⟨x, hx, rfl⟩
      obtain ⟨h1, h2, h3⟩ := (mem_reverseIndexPairs si ps pe x.1 x.2).mp hx
      exact ⟨x.2, h1, h2, by omega⟩
    · rintro ⟨i, h1, h2, h3⟩
      exact ⟨(n, i), (mem_reverseIndexPairs si ps pe n i).mpr ⟨h1, h2, by omega⟩, rfl⟩
  · rw [reverseIndex]
    rw [List.pairwise_map]
    refine List.Pairwise.imp_of_mem ?_ (pairs_sorted si ps pe)
    intro a b ha hb hle
    rw [pairs_snd_eq si ps pe a ha, pairs_snd_eq si ps pe b hb]
    exact hle
  · intro hcount
    rw [reverseIndex_length]
    have hone : ∀ k ∈ Finset.Ico (ps - 1) pe, si.count k = 1 := by
      intro k hk
      obtain ⟨h1, h2⟩ := Finset.mem_Ico.mp hk
      exact hcount k h1 (by omega)
    rw [Finset.sum_congr rfl hone]
    simp [Int.card_Ico]
    omega

theorem pointSelector_spec_witness :
    (reverseIndex [2, 0, 1] 1 3).length = ((3 : Int) - 1 + 1).toNat :=
  (pointSelector_spec [2, 0, 1] 1 3).2.2 (by decide)

theorem rowsOfSegment_closed (len : Nat) (off s e : Int) :
    rowsOfSegment len off s e = (min e (off + len - 1) + 1 - max s off).toNat := by
  induction len with
  | zero =>
    have h0 : rowsOfSegment 0 off s e = 0 := rfl
    rw [h0]
    push_cast
    omega
  | succ n ih =>
    have hstep : rowsOfSegment (n + 1) off s e
        = rowsOfSegment n off s e
          + if s ≤ (n : Int) + off ∧ (n : Int) + off ≤ e then 1 else 0 := by
      simp only [rowsOfSegment, List.range_succ, List.filter_append, List.length_append]
      by_cases h : s ≤ (n : Int) + off ∧ (n : Int) + off ≤ e
      · rw [if_pos h]
        simp [h.1, h.2]
      · rw [if_neg h]
        have : ¬(decide (s ≤ (n : Int) + off) && decide ((n : Int) + off ≤ e)) = true := by
          simpa using fun h1 h2 => h ⟨h1, h2⟩
        simp [List.filter_singleton, this]
    rw [hstep, ih]
    push_cast
    by_cases h : s ≤ (n : Int) + off ∧ (n : Int) + off ≤ e
    · rw [if_pos h]
      omega
    · rw [if_neg h]
      omega

theorem emittedRowsGo_closed (s e : Int) (lengths : List Nat) :
    ∀ off, emittedRowsGo s e lengths off
      = (min e (off + lengths.sum - 1) + 1 - max s off).toNat := by
  induction lengths with
  | nil =>
    intro off
    have h0 : emittedRowsGo s e [] off = 0 := rfl
    rw [h0, List.sum_nil]
    simp only [Nat.cast_zero]
    omega
  | cons l ls ih =>
    intro off
    have h0 : emittedRowsGo s e (l :: ls) off
        = rowsOfSegment l off s e + emittedRowsGo s e ls (off + l) := rfl
    rw [h0, List.sum_cons]
    rw [rowsOfSegment_closed, ih (off + l)]
    have hls : (0 : Int) ≤ (ls.sum : Int) := Int.ofNat_nonneg _
    push_cast at hls ⊢
    omega

/-- C4 (amended).  For any per-segment sample lengths and any window with
`0 <= start` and `end <= total - 1` — bounds every resolved window satisfies
— the emitter writes `max 0 (end - start + 1)` data rows: exactly
`end - start + 1` rows when the window is nonempty, and `0` rows when the
resolver produced an empty window (`end < start`), for which the claim's
unconditional formula would be negative (see `emitter_rowcount_cex`). -/
theorem emitter_rowcount_clamped (lengths : List Nat) (s e : Int)
    (hs : 0 ≤ s) (he : e ≤ (lengths.sum : Int) - 1) :
    (emittedRows lengths s e : Int) = max (e - s + 1) 0 := by
  rw [emittedRows, emittedRowsGo_closed s e lengths 0]
  omega

/-- C4 counterexample.  The run with steps `[10, 20, 30]` (one segment of
three samples) and requested step range `25:5` resolves to the window
`[2, 0]`; the emitter then writes `0` rows, not
`window_end - window_start + 1 = -1` rows. -/
theorem emitter_rowcount_cex :
    resolveRangeSteps (RangeArg.pair 25 5) [[10, 20, 30]] = ⟨2, 0, false, false⟩
    ∧ (emittedRows [3] 2 0 : Int) ≠ (0 : Int) - 2 + 1 := by decide

theorem emitter_rowcount_clamped_witness :
    (emittedRows [2, 1] 1 2 : Int) = max ((2 : Int) - 1 + 1) 0 :=
  emitter_rowcount_clamped [2, 1] 1 2 (by decide) (by decide)

theorem main_cons (args : Args) (first : Segment) (rest : List Segment)
    (hc : ¬(args.timestepRange ≠ RangeArg.all ∧ args.timeRange ≠ RangeArg.all)) :
    main args (first :: rest) = mainCore args first rest := by
  rw [main.eq_def, if_neg hc]

/-- C8.  Supplying both a timestep range and a time range is fatal before
anything else happens: the run ends in the `ConflictingSelection` diagnostic
(modelling exit status 1), and since the check precedes the file glob and
all processing, no window is resolved and no output is produced. -/
theorem conflicting_selection_fatal (args : Args) (segs : List Segment)
    (hs : args.timestepRange ≠ RangeArg.all) (ht : args.timeRange ≠ RangeArg.all) :
    main args segs = .error .conflictingSelection := by
  rw [main.eq_def, if_pos ⟨hs, ht⟩]

theorem conflicting_selection_fatal_witness :
    main ⟨PointsArg.all, RangeArg.single 3, RangeArg.single 1, "stdout"⟩ []
      = .error .conflictingSelection :=
  conflicting_selection_fatal _ _ (by decide) (by decide)

/-- C5.  Given a non-conflicting range selection and a nonempty file list,
the run fails with the `InvalidPointRange` diagnostic exactly when the
(possibly defaulted) 1-based point range `[start, end]` has `end < start`,
or `start < 1`, or `end` beyond the point count — the size of the identity
mapping of the first segment; otherwise validation passes and no such
diagnostic is emitted. -/
theorem invalidPointRange_iff (args : Args) (first : Segment) (rest : List Segment)
    (hc : ¬(args.timestepRange ≠ RangeArg.all ∧ args.timeRange ≠ RangeArg.all)) :
    main args (first :: rest) = .error .invalidPointRange ↔
      ((pointRange args.inputPoints first.sortIndex.length).2
          < (pointRange args.inputPoints first.sortIndex.length).1
        ∨ (pointRange args.inputPoints first.sortIndex.length).1 < 1
        ∨ (first.sortIndex.length : Int)
            < (pointRange args.inputPoints first.sortIndex.length).2) := by
  rw [main_cons args first rest hc, mainCore]
  constructor
  · intro h
    by_contra hno
    push_neg at hno
    obtain ⟨h1, h2, h3⟩ := hno
    rw [if_neg (by omega), if_neg (by omega), if_neg (by omega)] at h
    exact Except.noConfusion h
  · intro h
    rcases h with h | h | h
    · rw [if_pos h]
    · by_cases h1 : (pointRange args.inputPoints first.sortIndex.length).2
          < (pointRange args.inputPoints first.sortIndex.length).1
      · rw [if_pos h1]
      · rw [if_neg h1, if_pos h]
    · by_cases h1 : (pointRange args.inputPoints first.sortIndex.length).2
          < (pointRange args.inputPoints first.sortIndex.length).1
      · rw [if_pos h1]
      · rw [if_neg h1]
        by_cases h2 : (pointRange args.inputPoints first.sortIndex.length).1 < 1
        · rw [if_pos h2]
        · rw [if_neg h2, if_pos h]

theorem invalidPointRange_iff_witness :
    main ⟨PointsArg.pair 5 3, RangeArg.all, RangeArg.all, "stdout"⟩
        [⟨[0], [0], [0, 1, 2], 1⟩]
      = .error .invalidPointRange :=
  (invalidPointRange_iff ⟨PointsArg.pair 5 3, RangeArg.all, RangeArg.all, "stdout"⟩
    ⟨[0], [0], [0, 1, 2], 1⟩ [] (by decide)).mpr (Or.inl (by decide))

/-- C10.  If the first segment's identity mapping is empty, the defaulted
`"all"` point range becomes `[1, 0]`, so the end-before-start check fires
and the run ends in `InvalidPointRange` before any window is resolved or
row emitted. -/
theorem empty_mapping_invalid_point_range (args : Args) (first : Segment)
    (rest : List Segment)
    (hc : ¬(args.timestepRange ≠ RangeArg.all ∧ args.timeRange ≠ RangeArg.all))
    (hp : args.inputPoints = PointsArg.all) (hsi : first.sortIndex = []) :
    main args (first :: rest) = .error .invalidPointRange := by
  rw [main_cons args first rest hc, mainCore]
  have hpr : pointRange args.inputPoints first.sortIndex.length = (1, 0) := by
    rw [hp, hsi]
    rfl
  rw [hpr]
  norm_num

theorem empty_mapping_invalid_point_range_witness :
    main ⟨PointsArg.all, RangeArg.all, RangeArg.all, "stdout"⟩ [⟨[0], [0], [], 1⟩]
      = .error .invalidPointRange :=
  empty_mapping_invalid_point_range _ ⟨[0], [0], [], 1⟩ [] (by decide) rfl rfl

/-- C9.  On every successful run, the final newline (printed by lines
209-211 after the table is complete) is emitted exactly when the output
destination is a real file, i.e. when the output path is not `"stdout"`. -/
theorem trailing_newline_iff_file_output (args : Args) (segs : List Segment)
    (out : Output) (h : main args segs = .ok out) :
    out.finalNewline = true ↔ args.output ≠ "stdout" := by
  cases segs with
  | nil =>
    rw [main.eq_def] at h
    split at h
    · exact Except.noConfusion h
    · exact Except.noConfusion h
  | cons first rest =>
    by_cases hc : args.timestepRange ≠ RangeArg.all ∧ args.timeRange ≠ RangeArg.all
    · rw [main.eq_def, if_pos hc] at h
      exact Except.noConfusion h
    · rw [main_cons args first rest hc, mainCore] at h
      split at h
      · exact Except.noConfusion h
      · split at h
        · exact Except.noConfusion h
        · split at h
          · exact Except.noConfusion h
          · rw [← Except.ok.inj h]
            simp

theorem trailing_newline_iff_file_output_witness :
    (true = true ↔ ("out.txt" : String) ≠ "stdout") :=
  trailing_newline_iff_file_output
    ⟨PointsArg.all, RangeArg.single 0, RangeArg.all, "out.txt"⟩ [⟨[0], [0], [0], 1⟩]
    ⟨⟨0, 0, false, false⟩, [0], 1, true⟩ (by decide)

end PPD
